import Mathlib

/-!
Verification of the historic-data merge, cache, fetch and point-extraction
core of the `aws_meteo_backend` repository, shallowly embedded in Lean.

The embedding follows the Python sources:
  * `src/lib/historic/loader.py`  — merge pipeline, signature cache,
    longitude normalization, dedup-keep-last;
  * `src/app/s3_helpers.py`       — raster fetch/validation/re-fetch logic,
    variable-name resolution, per-key advisory-lock download protocol;
  * `src/lib/historic/extract.py` — nearest-neighbour point extraction,
    tolerance window, longitude convention handling, unit conversion.

Machine floats are embedded as rationals; xarray datasets are embedded as
coordinate vectors plus an index-addressed value function, with `none`
standing for a missing (NaN) sample.
-/

namespace AwsMeteo

/-! ## Generic stable insertion sort by a key

`xarray.Dataset.sortby` sorts by a 1-d coordinate with a stable sort
(equal keys keep their input order).  We embed it as insertion sort by a
key function, which is stable. -/

def ordInsertK {α β : Type} [LinearOrder β] (k : α → β) (x : α) : List α → List α
  | [] => [x]
  | y :: ys => if k x ≤ k y then x :: y :: ys else y :: ordInsertK k x ys

def sortByKey {α β : Type} [LinearOrder β] (k : α → β) : List α → List α
  | [] => []
  | x :: xs => ordInsertK k x (sortByKey k xs)

theorem perm_ordInsertK {α β : Type} [LinearOrder β] (k : α → β) (x : α) :
    ∀ l : List α, List.Perm (ordInsertK k x l) (x :: l) := by
  intro l
  induction l with
  | nil => simp [ordInsertK]
  | cons y ys ih =>
    by_cases h : k x ≤ k y
    · simp [ordInsertK, h]
    · simp only [ordInsertK, if_neg h]
      exact List.Perm.trans (List.Perm.cons y ih) (List.Perm.swap x y ys)

theorem perm_sortByKey {α β : Type} [LinearOrder β] (k : α → β) :
    ∀ l : List α, List.Perm (sortByKey k l) l := by
  intro l
  induction l with
  | nil => simp [sortByKey]
  | cons x xs ih =>
    exact List.Perm.trans (perm_ordInsertK k x (sortByKey k xs)) (List.Perm.cons x ih)

theorem pairwise_ordInsertK {α β : Type} [LinearOrder β] (k : α → β) (x : α) (l : List α)
    (h : l.Pairwise (fun a b => k a ≤ k b)) :
    (ordInsertK k x l).Pairwise (fun a b => k a ≤ k b) := by
  induction l with
  | nil => simp [ordInsertK]
  | cons y ys ih =>
    rcases List.pairwise_cons.mp h with ⟨hy, hys⟩
    by_cases hxy : k x ≤ k y
    · simp only [ordInsertK, if_pos hxy]
      refine List.pairwise_cons.mpr ⟨?_, h⟩
      intro b hb
      rcases hb with _ | hb
      · exact hxy
      · exact le_trans hxy (hy _ (by assumption))
    · simp only [ordInsertK, if_neg hxy]
      refine List.pairwise_cons.mpr ⟨?_, ih hys⟩
      intro b hb
      have hb' := List.mem_cons.mp ((perm_ordInsertK k x ys).mem_iff.mp hb)
      rcases hb' with hb1 | hb2
      · subst hb1
        exact le_of_lt (lt_of_not_le hxy)
      · exact hy _ hb2

theorem pairwise_sortByKey {α β : Type} [LinearOrder β] (k : α → β) :
    ∀ l : List α, (sortByKey k l).Pairwise (fun a b => k a ≤ k b) := by
  intro l
  induction l with
  | nil => simp [sortByKey]
  | cons x xs ih => exact pairwise_ordInsertK k x _ ih

/-- Stability, phrased through filtering on one key value: the entries whose
key equals `t` appear in the sorted list exactly as they appear in the input. -/
theorem filter_ordInsertK {α β : Type} [LinearOrder β] (k : α → β) (x : α) (t : β)
    (l : List α) :
    (ordInsertK k x l).filter (fun a => k a = t) =
      (x :: l).filter (fun a => k a = t) := by
  induction l with
  | nil => simp [ordInsertK]
  | cons y ys ih =>
    by_cases hxy : k x ≤ k y
    · simp [ordInsertK, hxy]
    · have hyx : k y < k x := lt_of_not_le hxy
      simp only [ordInsertK, if_neg hxy]
      by_cases hxt : k x = t
      · have hyt : ¬ (k y = t) := by
          intro hyt
          exact absurd (hyt.trans hxt.symm) (ne_of_lt hyx)
        simp [List.filter_cons, hxt, hyt, ih]
      · by_cases hyt : k y = t
        · simp [List.filter_cons, hxt, hyt, ih]
        · simp [List.filter_cons, hxt, hyt, ih]

theorem filter_sortByKey {α β : Type} [LinearOrder β] (k : α → β) (t : β) :
    ∀ l : List α,
      (sortByKey k l).filter (fun a => k a = t) = l.filter (fun a => k a = t) := by
  intro l
  induction l with
  | nil => simp [sortByKey]
  | cons x xs ih =>
    calc (ordInsertK k x (sortByKey k xs)).filter (fun a => k a = t)
        = (x :: sortByKey k xs).filter (fun a => k a = t) :=
          filter_ordInsertK k x t _
      _ = (x :: xs).filter (fun a => k a = t) := by
          simp only [List.filter_cons, ih]

theorem sublist_of_ordInsertK {α β : Type} [LinearOrder β] (k : α → β) (x : α)
    (l : List α) : List.Sublist l (ordInsertK k x l) := by
  induction l with
  | nil => simp [ordInsertK]
  | cons y ys ih =>
    by_cases hxy : k x ≤ k y
    · simp only [ordInsertK, if_pos hxy]
      exact List.Sublist.cons x (List.Sublist.refl _)
    · simp only [ordInsertK, if_neg hxy]
      exact List.Sublist.cons₂ y ih

/-! ## MergeEngine — `src/lib/historic/loader.py`

A historic source file is embedded as its canonicalized time series: a list
of `(valid_time, payload)` pairs, the payload covering the whole spatial
grid at that time stamp.  `_collapse_time_layer_if_present` ends with
`clean.sortby(TIME_DIM)`, so each source is sorted by time before the
merge; `load_merged_dataset` then concatenates the sources along
`valid_time` in catalog order, sorts by `valid_time` (a stable sort in
xarray), and drops duplicate time values keeping the last occurrence
(`_dedupe_dim_keep_last`, via `pandas.Index.duplicated(keep="last")`). -/

/-- One time-stamped record of a source: `(valid_time, grid payload)`. -/
abbrev TimeRec (α : Type) := Int × α

/-- `ds.sortby(TIME_DIM)`: stable sort of the records by their time stamp. -/
def sortTimeline {α : Type} (l : List (TimeRec α)) : List (TimeRec α) :=
  sortByKey Prod.fst l

/-- `_dedupe_dim_keep_last`: drop records whose time value occurs again
later in the list (`pandas.Index.duplicated(keep="last")` marks every
occurrence but the last). -/
def dedupeKeepLast {α : Type} : List (TimeRec α) → List (TimeRec α)
  | [] => []
  | x :: xs =>
      if xs.any (fun y => y.1 = x.1) then dedupeKeepLast xs
      else x :: dedupeKeepLast xs

/-- The time-axis content of `load_merged_dataset` on a non-empty catalog:
each source is canonicalized (sorted by `valid_time`); a single source is
returned as-is; two or more sources are concatenated in catalog order,
sorted by `valid_time` and deduplicated keeping the last occurrence. -/
def load_merged_timeline {α : Type} (sources : List (List (TimeRec α))) :
    List (TimeRec α) :=
  match sources with
  | [s] => sortTimeline s
  | ss => dedupeKeepLast (sortTimeline (ss.map sortTimeline).flatten)

/-- Membership in the dedup-keep-last result is exactly being the last
record of one's time value. -/
theorem mem_dedupeKeepLast {α : Type} :
    ∀ (xs : List (TimeRec α)) (t : Int) (v : α),
      (t, v) ∈ dedupeKeepLast xs ↔
        (xs.filter (fun p => p.1 = t)).getLast? = some (t, v) := by
  intro xs
  induction xs with
  | nil => intro t v; simp [dedupeKeepLast]
  | cons x xs ih =>
    intro t v
    by_cases hdup : xs.any (fun y => y.1 = x.1)
    · simp only [dedupeKeepLast, if_pos hdup]
      by_cases hxt : x.1 = t
      · have hne : (xs.filter (fun p => p.1 = t)) ≠ [] := by
          rcases List.any_eq_true.mp hdup with ⟨y, hy, hyt⟩
          have hyt' : y.1 = t := (of_decide_eq_true hyt).trans hxt
          intro hemp
          have hmem : y ∈ xs.filter (fun p => p.1 = t) :=
            List.mem_filter.mpr ⟨hy, decide_eq_true hyt'⟩
          rw [hemp] at hmem
          exact absurd hmem (List.not_mem_nil y)
        have hfc : (x :: xs).filter (fun p => p.1 = t) =
            x :: xs.filter (fun p => p.1 = t) := by
          simp [List.filter_cons, hxt]
        obtain ⟨z, zs, hz⟩ := List.exists_cons_of_ne_nil hne
        rw [ih t v, hfc, hz, List.getLast?_cons_cons]
      · have hfc : (x :: xs).filter (fun p => p.1 = t) =
            xs.filter (fun p => p.1 = t) := by
          simp [List.filter_cons, hxt]
        rw [ih t v, hfc]
    · simp only [dedupeKeepLast, if_neg hdup, List.mem_cons]
      by_cases hxt : x.1 = t
      · have hfilt : xs.filter (fun p => p.1 = t) = [] := by
          rw [List.filter_eq_nil_iff]
          intro y hy hyt
          exact hdup (List.any_eq_true.mpr
            ⟨y, hy, decide_eq_true ((of_decide_eq_true hyt).trans hxt.symm)⟩)
        have hnotmem : ¬ (t, v) ∈ dedupeKeepLast xs := by
          rw [ih t v, hfilt]
          simp
        have hfc : (x :: xs).filter (fun p => p.1 = t) = [x] := by
          simp [List.filter_cons, hxt, hfilt]
        rw [hfc]
        simp only [List.getLast?_singleton, Option.some_inj]
        constructor
        · intro h
          rcases h with h | h
          · rw [h]
          · exact absurd h hnotmem
        · intro h
          left
          rw [h]
      · have hfc : (x :: xs).filter (fun p => p.1 = t) =
            xs.filter (fun p => p.1 = t) := by
          simp [List.filter_cons, hxt]
        rw [hfc, ← ih t v]
        constructor
        · intro h
          rcases h with h | h
          · subst h
            exact absurd rfl hxt
          · exact h
        · intro h
          exact Or.inr h

theorem dedupeKeepLast_sublist {α : Type} :
    ∀ xs : List (TimeRec α), List.Sublist (dedupeKeepLast xs) xs := by
  intro xs
  induction xs with
  | nil => simp [dedupeKeepLast]
  | cons x xs ih =>
    by_cases hdup : xs.any (fun y => y.1 = x.1)
    · simp only [dedupeKeepLast, if_pos hdup]
      exact List.Sublist.cons x ih
    · simp only [dedupeKeepLast, if_neg hdup]
      exact List.Sublist.cons₂ x ih

/-- After dedup-keep-last, all time values are distinct. -/
theorem dedupeKeepLast_keys_nodup {α : Type} :
    ∀ xs : List (TimeRec α), ((dedupeKeepLast xs).map Prod.fst).Nodup := by
  intro xs
  induction xs with
  | nil => simp [dedupeKeepLast]
  | cons x xs ih =>
    by_cases hdup : xs.any (fun y => y.1 = x.1)
    · simpa only [dedupeKeepLast, if_pos hdup] using ih
    · simp only [dedupeKeepLast, if_neg hdup, List.map_cons, List.nodup_cons]
      refine ⟨?_, ih⟩
      intro hmem
      rcases List.mem_map.mp hmem with ⟨y, hy, hyx⟩
      have hy' : y ∈ xs := (dedupeKeepLast_sublist xs).mem hy
      exact hdup (List.any_eq_true.mpr ⟨y, hy', decide_eq_true hyx⟩)

/-- A list of records that is sorted by time and has pairwise-distinct
time values is strictly ascending in time. -/
theorem pairwise_lt_of_le_nodup {α : Type} (l : List (TimeRec α))
    (hle : l.Pairwise (fun a b => a.1 ≤ b.1))
    (hnd : (l.map Prod.fst).Nodup) :
    l.Pairwise (fun a b => a.1 < b.1) := by
  have hne : l.Pairwise (fun a b : TimeRec α => a.1 ≠ b.1) :=
    (List.pairwise_map.mp hnd)
  exact (hle.and hne).imp (fun h => lt_of_le_of_ne h.1 h.2)

/-- In a list whose time values are pairwise distinct, the only record with
time `t` is `(t, v)` once `(t, v)` is a member. -/
theorem filter_eq_singleton_of_nodup {α : Type} :
    ∀ (s : List (TimeRec α)) (t : Int) (v : α),
      ((s.map Prod.fst).Nodup) → (t, v) ∈ s →
      s.filter (fun p => p.1 = t) = [(t, v)] := by
  intro s
  induction s with
  | nil => intro t v _ hmem; exact absurd hmem (List.not_mem_nil _)
  | cons x xs ih =>
    intro t v hnd hmem
    rw [List.map_cons] at hnd
    rcases List.nodup_cons.mp hnd with ⟨hx, hnd'⟩
    rcases List.mem_cons.mp hmem with hmem1 | hmem2
    · subst hmem1
      have hfilt : xs.filter (fun p => p.1 = t) = [] := by
        rw [List.filter_eq_nil_iff]
        intro y hy hyt
        exact hx (List.mem_map.mpr ⟨y, hy, (of_decide_eq_true hyt)⟩)
      simp [List.filter_cons, hfilt]
    · have hxt : ¬ (x.1 = t) := by
        intro hxt
        apply hx
        refine List.mem_map.mpr ⟨(t, v), hmem2, ?_⟩
        simpa using hxt.symm
      have hfc : (x :: xs).filter (fun p => p.1 = t) =
          xs.filter (fun p => p.1 = t) := by
        simp [List.filter_cons, hxt]
      rw [hfc]
      exact ih t v hnd' hmem2

/-- In a list of records whose time values are pairwise distinct, the value
at a time value is unique. -/
theorem mem_value_unique {α : Type} :
    ∀ (l : List (TimeRec α)) (t : Int) (v w : α),
      (l.map Prod.fst).Nodup → (t, v) ∈ l → (t, w) ∈ l → w = v := by
  intro l
  induction l with
  | nil => intro t v w _ hv _; exact absurd hv (List.not_mem_nil _)
  | cons x xs ih =>
    intro t v w hnd hv hw
    rw [List.map_cons] at hnd
    rcases List.nodup_cons.mp hnd with ⟨hx, hnd'⟩
    rcases List.mem_cons.mp hv with hv1 | hv2 <;>
      rcases List.mem_cons.mp hw with hw1 | hw2
    · rw [← hv1] at hw1
      exact (Prod.ext_iff.mp hw1).2
    · exfalso
      apply hx
      rw [← hv1]
      exact List.mem_map.mpr ⟨(t, w), hw2, rfl⟩
    · exfalso
      apply hx
      rw [← hw1]
      exact List.mem_map.mpr ⟨(t, v), hv2, rfl⟩
    · exact ih t v w hnd' hv2 hw2

theorem filter_flatten_recs {α : Type} (p : TimeRec α → Bool) :
    ∀ ls : List (List (TimeRec α)),
      ls.flatten.filter p = (ls.map (fun l => l.filter p)).flatten := by
  intro ls
  induction ls with
  | nil => simp
  | cons l ls ih => simp [List.filter_append, ih]

theorem sortTimeline_ascending {α : Type} (s : List (TimeRec α))
    (h : (s.map Prod.fst).Nodup) :
    (sortTimeline s).Pairwise (fun a b => a.1 < b.1) := by
  apply pairwise_lt_of_le_nodup
  · exact pairwise_sortByKey Prod.fst s
  · exact ((perm_sortByKey Prod.fst s).map Prod.fst).nodup_iff.mpr h

theorem dedupe_sort_ascending {α : Type} (F : List (TimeRec α)) :
    (dedupeKeepLast (sortTimeline F)).Pairwise (fun a b => a.1 < b.1) := by
  apply pairwise_lt_of_le_nodup
  · exact (pairwise_sortByKey Prod.fst F).sublist (dedupeKeepLast_sublist _)
  · exact dedupeKeepLast_keys_nodup _

theorem mem_merged_multi {α : Type}
    (l1 : List (List (TimeRec α))) (s : List (TimeRec α))
    (l2 : List (List (TimeRec α))) (t : Int) (v : α)
    (hnds : (s.map Prod.fst).Nodup)
    (hv : (t, v) ∈ s)
    (hlater : ∀ s' ∈ l2, ∀ w : α, (t, w) ∉ s') :
    (t, v) ∈ dedupeKeepLast
      (sortTimeline ((l1 ++ s :: l2).map sortTimeline).flatten) := by
  rw [mem_dedupeKeepLast]
  have hfs : (sortTimeline ((l1 ++ s :: l2).map sortTimeline).flatten).filter
      (fun p => p.1 = t) =
      (((l1 ++ s :: l2).map sortTimeline).flatten).filter (fun p => p.1 = t) :=
    filter_sortByKey Prod.fst t _
  rw [hfs, List.map_append, List.map_cons, List.flatten_append, List.flatten_cons,
    List.filter_append, List.filter_append]
  have hs1a : (sortTimeline s).filter (fun p => p.1 = t) =
      s.filter (fun p => p.1 = t) := filter_sortByKey Prod.fst t s
  have hs1 : (sortTimeline s).filter (fun p => p.1 = t) = [(t, v)] := by
    rw [hs1a]
    exact filter_eq_singleton_of_nodup s t v hnds hv
  have hs2 : ((l2.map sortTimeline).flatten).filter (fun p => p.1 = t) = [] := by
    rw [List.filter_eq_nil_iff]
    intro y hy hyt
    rcases List.mem_flatten.mp hy with ⟨m, hm, hym⟩
    rcases List.mem_map.mp hm with ⟨s', hs', hss'⟩
    have hys' : y ∈ s' := by
      rw [← hss'] at hym
      exact (perm_sortByKey Prod.fst s').mem_iff.mp hym
    have hyt' : y.1 = t := of_decide_eq_true hyt
    have : (t, y.2) ∈ s' := by
      rw [← hyt']
      exact hys'
    exact hlater s' hs' y.2 this
  rw [hs1, hs2, List.append_nil]
  exact List.getLast?_concat _

/-- C1 (amended): for every non-empty source list in which each individual
source's time values are duplicate-free, the merged time axis produced by
`load_merged_dataset` is strictly ascending with no duplicated time
values, and every record whose time value does not recur in a later-listed
source survives into the merge as the unique value at its time — so at a
time covered by several sources the later-listed source wins. -/
theorem load_merged_timeline_ascending_keep_last {α : Type}
    (sources : List (List (TimeRec α)))
    (hne : sources ≠ [])
    (hnd : ∀ s ∈ sources, (s.map Prod.fst).Nodup) :
    ((load_merged_timeline sources).Pairwise (fun a b => a.1 < b.1)) ∧
    (∀ (l1 : List (List (TimeRec α))) (s : List (TimeRec α))
        (l2 : List (List (TimeRec α))),
      sources = l1 ++ s :: l2 →
      ∀ (t : Int) (v : α), (t, v) ∈ s →
      (∀ s' ∈ l2, ∀ w : α, (t, w) ∉ s') →
      ((t, v) ∈ load_merged_timeline sources ∧
        ∀ w : α, (t, w) ∈ load_merged_timeline sources → w = v)) := by
  match sources with
  | [] => exact absurd rfl hne
  | [s0] =>
    have hm : load_merged_timeline [s0] = sortTimeline s0 := rfl
    have hnd0 : (s0.map Prod.fst).Nodup := hnd s0 (List.mem_singleton.mpr rfl)
    have hasc : (load_merged_timeline [s0]).Pairwise (fun a b => a.1 < b.1) := by
      rw [hm]
      exact sortTimeline_ascending s0 hnd0
    refine ⟨hasc, ?_⟩
    intro l1 s l2 heq t v hv _
    have hs0 : s = s0 := by
      cases l1 with
      | nil =>
        simp only [List.nil_append] at heq
        injection heq with h1 h2
        exact h1.symm
      | cons a l1' =>
        exfalso
        have hlen := congrArg List.length heq
        simp [List.length_append] at hlen
    subst hs0
    have hmem : (t, v) ∈ load_merged_timeline [s] := by
      rw [show load_merged_timeline [s] = sortTimeline s from rfl]
      exact ((perm_sortByKey Prod.fst s).mem_iff).mpr hv
    refine ⟨hmem, ?_⟩
    intro w hw
    have hndm : ((load_merged_timeline [s]).map Prod.fst).Nodup := by
      rw [show load_merged_timeline [s] = sortTimeline s from rfl]
      exact ((perm_sortByKey Prod.fst s).map Prod.fst).nodup_iff.mpr
        (hnd s (List.mem_singleton.mpr rfl))
    exact mem_value_unique _ t v w hndm hmem hw
  | s0 :: s1 :: rest =>
    have hm : load_merged_timeline (s0 :: s1 :: rest) =
        dedupeKeepLast
          (sortTimeline (((s0 :: s1 :: rest).map sortTimeline).flatten)) := rfl
    have hasc : (load_merged_timeline (s0 :: s1 :: rest)).Pairwise
        (fun a b => a.1 < b.1) := by
      rw [hm]
      exact dedupe_sort_ascending _
    refine ⟨hasc, ?_⟩
    intro l1 s l2 heq t v hv hlater
    have hnds : (s.map Prod.fst).Nodup := by
      apply hnd
      rw [heq]
      exact List.mem_append.mpr (Or.inr (List.mem_cons_self _ _))
    have hmem : (t, v) ∈ load_merged_timeline (s0 :: s1 :: rest) := by
      rw [hm, show ((s0 :: s1 :: rest) : List (List (TimeRec α))) = l1 ++ s :: l2 from heq]
      exact mem_merged_multi l1 s l2 t v hnds hv hlater
    refine ⟨hmem, ?_⟩
    intro w hw
    have hndm : ((load_merged_timeline (s0 :: s1 :: rest)).map Prod.fst).Nodup := by
      rw [hm]
      exact dedupeKeepLast_keys_nodup _
    exact mem_value_unique _ t v w hndm hmem hw

/-- C1 counterexample: a successful `load_merged_dataset` call over the
single-source catalog `[[(5,10),(5,20)]]` — one source file whose time
axis carries the value 5 twice — returns that source unchanged, because
the single-source branch of the merge skips deduplication; its time axis
is not strictly ascending and has a duplicated time value. -/
theorem load_merged_timeline_single_dup_counterexample :
    load_merged_timeline [[((5 : Int), (10 : Int)), ((5 : Int), (20 : Int))]] =
      [((5 : Int), (10 : Int)), ((5 : Int), (20 : Int))] ∧
    ¬ ((load_merged_timeline [[((5 : Int), (10 : Int)), ((5 : Int), (20 : Int))]]).Pairwise
        (fun a b => a.1 < b.1)) := by
  constructor
  · decide
  · decide

/-- Witness for the amended C1 theorem at a concrete two-source catalog:
the update layer's value 99 at time 2 wins over the base layer's 20. -/
theorem load_merged_timeline_keep_last_witness :
    ((2 : Int), (99 : Int)) ∈
      load_merged_timeline [[((1 : Int), (10 : Int)), (2, 20)], [(2, 99)]] ∧
    (load_merged_timeline
      [[((1 : Int), (10 : Int)), (2, 20)], [(2, 99)]]).Pairwise
        (fun a b => a.1 < b.1) := by
  have h := load_merged_timeline_ascending_keep_last
    [[((1 : Int), (10 : Int)), (2, 20)], [(2, 99)]] (by decide) (by decide)
  refine ⟨?_, h.1⟩
  exact (h.2 [[(1, 10), (2, 20)]] [(2, 99)] [] rfl 2 99 (by decide)
    (fun s' hs' => absurd hs' (List.not_mem_nil s'))).1

/-! ## Merge cache — `_cache_key` and `load_merged_dataset`'s signature
cache (`src/lib/historic/loader.py`)

`CACHE = cachetools.LRUCache(maxsize=2)`: the cache is embedded as an
association list ordered most-recently-used first, truncated to two
entries.  The actual merge computation is abstracted as an arbitrary
function `merge` of the sources; the returned `Bool` records whether it
ran (on a cache hit the cached Dataset is returned with no source opened
or recomputed). -/

/-- Result of `Path.stat()` on one source file, as used by `_cache_key`. -/
structure PathStat where
  name : String
  mtime_ns : Int
  size : Int
deriving DecidableEq

/-- `_cache_key`: the tuple of `(name, st_mtime_ns, st_size)` signatures of
the current sources, in catalog order. -/
def _cache_key (paths : List PathStat) : List (String × Int × Int) :=
  paths.map (fun p => (p.name, p.mtime_ns, p.size))

abbrev MergeCache (α : Type) := List ((List (String × Int × Int)) × α)

def cacheLookup {α : Type} (c : MergeCache α) (k : List (String × Int × Int)) :
    Option α :=
  (c.find? (fun e => e.1 = k)).map (fun e => e.2)

def CACHE_MAXSIZE : Nat := 2

/-- `CACHE[key] = value`: insert as most recent, evicting beyond capacity 2. -/
def lruInsert {α : Type} (k : List (String × Int × Int)) (v : α)
    (c : MergeCache α) : MergeCache α :=
  ((k, v) :: c.filter (fun e => ¬ e.1 = k)).take CACHE_MAXSIZE

/-- `CACHE[key]` on a hit marks the entry most recently used. -/
def lruTouch {α : Type} (k : List (String × Int × Int)) (c : MergeCache α) :
    MergeCache α :=
  match cacheLookup c k with
  | none => c
  | some v => (k, v) :: c.filter (fun e => ¬ e.1 = k)

/-- `load_merged_dataset`: raise on an empty catalog; otherwise look the
signature key up in the cache — a hit returns the cached Dataset
unchanged, a miss runs the merge and caches it.  The `Bool` is `true` iff
the merge pipeline ran. -/
def load_merged_dataset {α : Type} (merge : List PathStat → α)
    (c : MergeCache α) (sources : List PathStat) :
    Except Unit (α × MergeCache α × Bool) :=
  if sources.isEmpty then .error ()
  else
    match cacheLookup c (_cache_key sources) with
    | some d => .ok (d, lruTouch (_cache_key sources) c, false)
    | none => .ok (merge sources,
        lruInsert (_cache_key sources) (merge sources) c, true)

theorem cacheLookup_lruInsert_self {α : Type} (k : List (String × Int × Int))
    (v : α) (c : MergeCache α) : cacheLookup (lruInsert k v c) k = some v := by
  simp [cacheLookup, lruInsert, CACHE_MAXSIZE, List.take_succ_cons, List.find?]

theorem map_set_ne {α β : Type} (f : α → β) :
    ∀ (l : List α) (i : Nat) (hi : i < l.length) (a : α),
      f a ≠ f (l.get ⟨i, hi⟩) → ¬ ((l.set i a).map f = l.map f) := by
  intro l
  induction l with
  | nil =>
    intro i hi
    exact absurd hi (by simp)
  | cons x xs ih =>
    intro i hi a hne heq
    cases i with
    | zero =>
      rw [List.set_cons_zero, List.map_cons, List.map_cons] at heq
      injection heq with h1 _
      exact hne (by simpa using h1)
    | succ n =>
      rw [List.set_cons_succ, List.map_cons, List.map_cons] at heq
      injection heq with _ h2
      exact ih n (by simpa using hi) a (by simpa using hne) h2

/-- C2: after any successful `load_merged_dataset` call, a second call with
every source signature unchanged returns the very same Dataset from the
cache without rerunning the merge; and starting from an empty cache, if
one source's modification time changes between two calls, the second call
misses the cache and reruns the merge. -/
theorem load_merged_dataset_cache_behaviour {α : Type}
    (merge : List PathStat → α) (c : MergeCache α) (S : List PathStat)
    (hS : S ≠ []) :
    (∀ (d : α) (c1 : MergeCache α) (r : Bool),
      load_merged_dataset merge c S = .ok (d, c1, r) →
      load_merged_dataset merge c1 S =
        .ok (d, lruTouch (_cache_key S) c1, false)) ∧
    (∀ (i : Nat) (hi : i < S.length) (m' : Int),
      m' ≠ (S.get ⟨i, hi⟩).mtime_ns →
      ∀ (d : α) (c1 : MergeCache α) (r : Bool),
      load_merged_dataset merge [] S = .ok (d, c1, r) →
      load_merged_dataset merge c1 (S.set i { S.get ⟨i, hi⟩ with mtime_ns := m' }) =
        .ok (merge (S.set i { S.get ⟨i, hi⟩ with mtime_ns := m' }),
          lruInsert (_cache_key (S.set i { S.get ⟨i, hi⟩ with mtime_ns := m' }))
            (merge (S.set i { S.get ⟨i, hi⟩ with mtime_ns := m' })) c1, true)) := by
  have hSne : S.isEmpty = false := by
    cases S with
    | nil => exact absurd rfl hS
    | cons a l => rfl
  constructor
  · intro d c1 r hcall
    have hlk : cacheLookup c1 (_cache_key S) = some d := by
      rw [load_merged_dataset, if_neg (by simp [hSne])] at hcall
      cases hfind : cacheLookup c (_cache_key S) with
      | some d0 =>
        rw [hfind] at hcall
        injection hcall with h
        have hd : d0 = d := (Prod.ext_iff.mp h).1
        have hc1 : lruTouch (_cache_key S) c = c1 :=
          ((Prod.ext_iff.mp (Prod.ext_iff.mp h).2).1)
        rw [← hc1, lruTouch, hfind]
        simp [cacheLookup, List.find?, hd]
      | none =>
        rw [hfind] at hcall
        injection hcall with h
        have hd : merge S = d := (Prod.ext_iff.mp h).1
        have hc1 : lruInsert (_cache_key S) (merge S) c = c1 :=
          ((Prod.ext_iff.mp (Prod.ext_iff.mp h).2).1)
        rw [← hc1, ← hd]
        exact cacheLookup_lruInsert_self _ _ c
    rw [load_merged_dataset, if_neg (by simp [hSne]), hlk]
  · intro i hi m' hm d c1 r hcall
    set S' := S.set i { S.get ⟨i, hi⟩ with mtime_ns := m' } with hS'
    have hkne : _cache_key S' ≠ _cache_key S := by
      apply map_set_ne (fun p => (p.name, p.mtime_ns, p.size)) S i hi
      intro hcontra
      exact hm (congrArg (fun q : String × Int × Int => q.2.1) hcontra)
    have hc1 : c1 = [(_cache_key S, merge S)] := by
      rw [load_merged_dataset, if_neg (by simp [hSne])] at hcall
      have hnone : cacheLookup ([] : MergeCache α) (_cache_key S) = none := rfl
      rw [hnone] at hcall
      injection hcall with h
      have hc1' : lruInsert (_cache_key S) (merge S) [] = c1 :=
        (Prod.ext_iff.mp (Prod.ext_iff.mp h).2).1
      rw [← hc1']
      simp [lruInsert, CACHE_MAXSIZE, List.take_succ_cons]
    have hS'ne : S'.isEmpty = false := by
      have : S'.length = S.length := List.length_set S i _
      cases hx : S' with
      | nil =>
        exfalso
        rw [hx] at this
        cases S with
        | nil => exact absurd rfl hS
        | cons a l => simp at this
      | cons a l => rfl
    have hmiss : cacheLookup c1 (_cache_key S') = none := by
      rw [hc1]
      simp [cacheLookup, List.find?, Ne.symm hkne]
    rw [load_merged_dataset, if_neg (by simp [hS'ne]), hmiss]

/-- Witness for C2 at a concrete one-file catalog: the first call merges,
the unchanged second call is a cache hit returning the same value without
recomputation, and a call after an mtime change recomputes. -/
theorem load_merged_dataset_cache_witness :
    load_merged_dataset (fun l => l.length) [] [⟨"a", 1, 5⟩] =
      .ok (1, [([("a", 1, 5)], 1)], true) ∧
    load_merged_dataset (fun l => l.length) [([("a", 1, 5)], 1)] [⟨"a", 1, 5⟩] =
      .ok (1, [([("a", 1, 5)], 1)], false) ∧
    load_merged_dataset (fun l => l.length) [([("a", 1, 5)], 1)] [⟨"a", 2, 5⟩] =
      .ok (1, [([("a", 2, 5)], 1), ([("a", 1, 5)], 1)], true) := by
  have h := load_merged_dataset_cache_behaviour (fun l : List PathStat => l.length)
    ([] : MergeCache Nat) [⟨"a", 1, 5⟩] (by simp)
  refine ⟨rfl, ?_, ?_⟩
  · have h2 := h.1 1 [([("a", 1, 5)], 1)] true rfl
    simpa using h2
  · have h3 := h.2 0 (by simp) 2 (by decide) 1 [([("a", 1, 5)], 1)] true rfl
    simpa using h3

/-! ## RunStepRasterCache — `load_dataset` (`src/app/s3_helpers.py`)

Single-call fetch/validation behaviour.  The world before a call is
abstracted to: whether a local cached file exists and whether it passes
the probe-open, and whether a fresh download of the remote object would
pass structural validation (size at least 100 bytes and openable). -/

structure FetchWorld where
  cached : Option Bool
  remoteValid : Bool
deriving DecidableEq

structure FetchTrace where
  probeFailed : Bool
  downloaded : Bool
  ok : Bool
deriving DecidableEq

/-- The fetch part of `load_dataset` under the per-key lock: an existing
local file is probe-opened — on probe failure it is deleted; if no (valid)
local file remains, one fresh copy is downloaded and validated, and a
validation failure of that fresh copy raises to the caller. -/
def load_dataset_fetch (w : FetchWorld) : FetchTrace :=
  match w.cached with
  | some true => ⟨false, false, true⟩
  | some false => ⟨true, true, w.remoteValid⟩
  | none => ⟨false, true, w.remoteValid⟩

/-- Number of structural-validation failures observed during the call. -/
def validationFailures (w : FetchWorld) (tr : FetchTrace) : Nat :=
  (if tr.probeFailed then 1 else 0) +
    (if tr.downloaded && !w.remoteValid then 1 else 0)

/-- Number of downloads performed after a validation failure in the same
call — the automatic re-fetches. -/
def refetches (tr : FetchTrace) : Nat :=
  if tr.probeFailed && tr.downloaded then 1 else 0

/-- C3 counterexample: with no cached file and a structurally invalid
remote artifact, the downloaded artifact fails validation once, the call
raises immediately, and no automatic re-fetch is performed — the claim's
"exactly one automatic re-fetch, only a second failure is fatal" fails. -/
theorem load_dataset_fetch_counterexample :
    validationFailures ⟨none, false⟩ (load_dataset_fetch ⟨none, false⟩) = 1 ∧
    refetches (load_dataset_fetch ⟨none, false⟩) = 0 ∧
    (load_dataset_fetch ⟨none, false⟩).ok = false := by
  decide

/-- C3 (amended): the single automatic re-fetch applies to a *cached*
artifact that fails probe validation — it is deleted, exactly one fresh
copy is downloaded, and only a validation failure of that fresh copy is
surfaced as fatal; a valid cached file is returned with no download; and a
validation failure of the initial download when no cached file existed is
fatal immediately with no re-fetch. -/
theorem load_dataset_fetch_refetch_policy (w : FetchWorld) :
    (w.cached = some false →
      load_dataset_fetch w = ⟨true, true, w.remoteValid⟩ ∧
      refetches (load_dataset_fetch w) = 1 ∧
      ((load_dataset_fetch w).ok = false ↔
        validationFailures w (load_dataset_fetch w) = 2)) ∧
    (w.cached = some true →
      load_dataset_fetch w = ⟨false, false, true⟩) ∧
    (w.cached = none → w.remoteValid = false →
      (load_dataset_fetch w).ok = false ∧
      refetches (load_dataset_fetch w) = 0) := by
  rcases w with ⟨c, r⟩
  refine ⟨fun h1 => ?_, fun h1 => ?_, fun h1 h2 => ?_⟩
  · subst h1
    cases r <;> decide
  · subst h1
    exact rfl
  · subst h1
    subst h2
    decide

/-- Witness for the amended C3 theorem: a corrupt cached file with a valid
remote copy is deleted, re-fetched exactly once, and the call succeeds. -/
theorem load_dataset_fetch_refetch_policy_witness :
    load_dataset_fetch ⟨some false, true⟩ = ⟨true, true, true⟩ ∧
    refetches (load_dataset_fetch ⟨some false, true⟩) = 1 ∧
    (load_dataset_fetch ⟨some false, true⟩).ok = true := by
  have h := (load_dataset_fetch_refetch_policy ⟨some false, true⟩).1 rfl
  exact ⟨h.1, h.2.1, by decide⟩

/-! ## Variable-name resolution — `pick_data_var` (`src/app/s3_helpers.py`) -/

/-- `pick_data_var`: preferred name if present; else the literal name
`"var"` if present; else the sole data variable if there is exactly one;
else a `KeyError` carrying the candidate list. -/
def pick_data_var (dataVars : List String) (preferred : String) :
    Except (List String) String :=
  if preferred ∈ dataVars then .ok preferred
  else if "var" ∈ dataVars then .ok "var"
  else if dataVars.length = 1 then .ok (dataVars.headD "")
  else .error dataVars

/-- C4 counterexample: with data variables `["a", "var", "b"]` and
preferred name `"sti"`, the preferred name is absent and more than one
variable remains, so the claim demands a failure with the candidate list —
but the code succeeds through its undocumented `"var"` fallback. -/
theorem pick_data_var_counterexample :
    pick_data_var ["a", "var", "b"] "sti" = .ok "var" ∧
    "sti" ∉ (["a", "var", "b"] : List String) ∧
    (["a", "var", "b"] : List String).length ≠ 1 := by
  refine ⟨?_, by decide, by decide⟩
  rfl

/-- C4 (amended): resolution succeeds exactly through one of three cases —
the preferred name when present; else the literal fallback name `"var"`
when present; else the sole data variable when exactly one exists — and
every failure carries the full candidate list. -/
theorem pick_data_var_characterization (dataVars : List String)
    (preferred : String) :
    (∀ r : String, pick_data_var dataVars preferred = .ok r ↔
      ((r = preferred ∧ preferred ∈ dataVars) ∨
        (preferred ∉ dataVars ∧ r = "var" ∧ "var" ∈ dataVars) ∨
        (preferred ∉ dataVars ∧ "var" ∉ dataVars ∧ dataVars = [r]))) ∧
    (∀ e : List String, pick_data_var dataVars preferred = .error e →
      e = dataVars) := by
  by_cases h1 : preferred ∈ dataVars
  · constructor
    · intro r
      simp only [pick_data_var, if_pos h1, Except.ok.injEq]
      constructor
      · intro h
        exact Or.inl ⟨h.symm, h1⟩
      · intro h
        rcases h with h | h | h
        · exact h.1.symm
        · exact absurd h1 h.1
        · exact absurd h1 h.1
    · intro e he
      simp only [pick_data_var, if_pos h1] at he
      exact Except.noConfusion he
  · by_cases h2 : "var" ∈ dataVars
    · constructor
      · intro r
        simp only [pick_data_var, if_neg h1, if_pos h2, Except.ok.injEq]
        constructor
        · intro h
          exact Or.inr (Or.inl ⟨h1, h.symm, h2⟩)
        · intro h
          rcases h with h | h | h
          · exact absurd h.2 h1
          · exact h.2.1.symm
          · exact absurd h2 h.2.1
      · intro e he
        simp only [pick_data_var, if_neg h1, if_pos h2] at he
        exact Except.noConfusion he
    · by_cases h3 : dataVars.length = 1
      · have hl : dataVars = [dataVars.headD ""] := by
          cases dataVars with
          | nil => simp at h3
          | cons a l =>
            cases l with
            | nil => rfl
            | cons b m => simp at h3
        constructor
        · intro r
          simp only [pick_data_var, if_neg h1, if_neg h2, if_pos h3,
            Except.ok.injEq]
          constructor
          · intro h
            refine Or.inr (Or.inr ⟨h1, h2, ?_⟩)
            rw [hl, h]
          · intro h
            rcases h with h | h | h
            · exact absurd h.2 h1
            · exact absurd h.2.2 h2
            · rw [hl] at h
              simpa using h.2.2
        · intro e he
          simp only [pick_data_var, if_neg h1, if_neg h2, if_pos h3] at he
          exact Except.noConfusion he
      · constructor
        · intro r
          simp only [pick_data_var, if_neg h1, if_neg h2, if_neg h3]
          constructor
          · intro h
            exact absurd h (by simp)
          · intro h
            rcases h with h | h | h
            · exact absurd h.2 h1
            · exact absurd h.2.2 h2
            · exfalso
              apply h3
              rw [h.2.2]
              rfl
        · intro e he
          simp only [pick_data_var, if_neg h1, if_neg h2, if_neg h3,
            Except.error.injEq] at he
          exact he.symm

/-- Witness for the amended C4 theorem at concrete inputs: the preferred
name wins when present, and a two-variable set with no preferred and no
`"var"` fails with the candidate list. -/
theorem pick_data_var_characterization_witness :
    pick_data_var ["sti", "x"] "sti" = .ok "sti" ∧
    pick_data_var ["a", "b"] "sti" = .error ["a", "b"] := by
  constructor
  · exact ((pick_data_var_characterization ["sti", "x"] "sti").1 "sti").mpr
      (Or.inl ⟨rfl, by decide⟩)
  · rfl

/-! ## At-most-one-download protocol — `load_dataset` under `FileLock`

N workers (threads or processes sharing the cache directory) each run
`load_dataset` for the same `(run, step)` key: acquire the named advisory
lock; under the lock, check the final path and download-validate-publish a
fresh copy only if it is absent; release the lock.  The shared world is a
transition system; every file access of a worker happens while it holds
the lock, so a worker's whole critical section is one step. -/

inductive FetchPC where
  | idle
  | critical
  | finished
deriving DecidableEq

structure LockWorld (n : Nat) where
  lockHolder : Option (Fin n)
  published : Bool
  downloads : Nat
  pc : Fin n → FetchPC

def initLockWorld (n : Nat) : LockWorld n :=
  ⟨none, false, 0, fun _ => .idle⟩

/-- One step of the protocol: a waiting worker acquires the free lock, or
the lock holder runs its critical section — downloading and atomically
publishing one fresh copy only when the final path is still absent — and
releases the lock. -/
inductive LockStep (n : Nat) : LockWorld n → LockWorld n → Prop where
  | acquire (s : LockWorld n) (i : Fin n) :
      s.lockHolder = none → s.pc i = .idle →
      LockStep n s { s with
        lockHolder := some i,
        pc := fun j => if j = i then .critical else s.pc j }
  | work (s : LockWorld n) (i : Fin n) :
      s.lockHolder = some i → s.pc i = .critical →
      LockStep n s { lockHolder := none,
                     published := true,
                     downloads := s.downloads + (if s.published then 0 else 1),
                     pc := fun j => if j = i then .finished else s.pc j }

def ReachableLockWorld (n : Nat) (s : LockWorld n) : Prop :=
  Relation.ReflTransGen (LockStep n) (initLockWorld n) s

def LockInv {n : Nat} (s : LockWorld n) : Prop :=
  (s.downloads = if s.published then 1 else 0) ∧
  (∀ j, s.pc j = .finished → s.published = true) ∧
  (∀ j, s.pc j = .critical → s.lockHolder = some j)

theorem lockInv_step {n : Nat} {a b : LockWorld n} (hstep : LockStep n a b)
    (ih : LockInv a) : LockInv b := by
  rcases ih with ⟨ihd, ihf, ihc⟩
  cases hstep with
  | acquire i hfree hidle =>
    refine ⟨ihd, fun j hj => ?_, fun j hj => ?_⟩
    · by_cases hji : j = i
      · simp only [hji, if_pos rfl] at hj
        exact absurd hj (by simp)
      · simp only [if_neg hji] at hj
        exact ihf j hj
    · by_cases hji : j = i
      · simp [hji]
      · simp only [if_neg hji] at hj
        exact absurd (ihc j hj) (by simp [hfree])
  | work i hhold hcrit =>
    refine ⟨?_, fun j _ => rfl, fun j hj => ?_⟩
    · by_cases hp : a.published
      · simp [ihd, hp]
      · simp only [Bool.not_eq_true] at hp
        simp [ihd, hp]
    · by_cases hji : j = i
      · simp only [hji, if_pos rfl] at hj
        exact absurd hj (by simp)
      · simp only [if_neg hji] at hj
        have hjc := ihc j hj
        rw [hhold] at hjc
        injection hjc with hij
        exact absurd hij.symm hji

theorem lockInv_reachable (n : Nat) (s : LockWorld n)
    (h : ReachableLockWorld n s) : LockInv s := by
  induction h with
  | refl =>
    refine ⟨rfl, fun j hj => ?_, fun j hj => ?_⟩
    · exact absurd hj (by simp [initLockWorld])
    · exact absurd hj (by simp [initLockWorld])
  | tail hab hbc ih =>
    exact lockInv_step hbc ih

/-- C7: in every reachable state of the protocol at most one download has
happened and at most one worker is inside the lock-protected critical
section; once every worker has completed its `load_dataset` call, exactly
one successful download has been performed, no matter how many workers
raced for the same key. -/
theorem load_dataset_at_most_one_download (n : Nat) (hn : 1 ≤ n)
    (s : LockWorld n) (hs : ReachableLockWorld n s) :
    s.downloads ≤ 1 ∧
    (∀ i j : Fin n, s.pc i = .critical → s.pc j = .critical → i = j) ∧
    ((∀ i, s.pc i = .finished) → s.downloads = 1) := by
  obtain ⟨hd, hf, hc⟩ := lockInv_reachable n s hs
  refine ⟨?_, ?_, ?_⟩
  · rw [hd]
    by_cases hp : s.published <;> simp [hp]
  · intro i j hi hj
    have h1 := hc i hi
    have h2 := hc j hj
    rw [h1] at h2
    exact Option.some.inj h2
  · intro hall
    have hp : s.published = true := hf ⟨0, hn⟩ (hall ⟨0, hn⟩)
    rw [hd, hp]
    simp

/-- Witness for C7 applied at a concrete reachable state (the initial
state of a single-worker system): no download has happened yet. -/
theorem load_dataset_at_most_one_download_witness :
    (initLockWorld 1).downloads ≤ 1 :=
  (load_dataset_at_most_one_download 1 (by decide) (initLockWorld 1)
    Relation.ReflTransGen.refl).1

/-! ## Longitude arithmetic

Python's `%` on floats with a positive modulus returns a value in
`[0, modulus)`; machine floats are embedded as rationals. -/

/-- Python's `x % y` for rationals (sign follows the divisor). -/
def pymod (x y : ℚ) : ℚ := x - y * ⌊x / y⌋

theorem pymod_eq_fract (x : ℚ) : pymod x 360 = 360 * Int.fract (x / 360) := by
  rw [pymod, Int.fract, mul_sub]
  have h : (360 : ℚ) * (x / 360) = x := by
    field_simp
  rw [h]

theorem pymod_nonneg (x : ℚ) : 0 ≤ pymod x 360 := by
  rw [pymod_eq_fract]
  have := Int.fract_nonneg (x / 360)
  nlinarith

theorem pymod_lt (x : ℚ) : pymod x 360 < 360 := by
  rw [pymod_eq_fract]
  have := Int.fract_lt_one (x / 360)
  nlinarith

theorem pymod_add_360 (x : ℚ) : pymod (x + 360) 360 = pymod x 360 := by
  rw [pymod, pymod]
  have h1 : (x + 360) / 360 = x / 360 + 1 := by
    field_simp
  rw [h1, Int.floor_add_one]
  push_cast
  ring

/-! ## `_normalize_lon_180` — `src/lib/historic/loader.py`

The longitude coordinate vector of one source dataset: when its maximum
exceeds 180 every value is remapped by `((lon + 180) % 360) - 180`; the
vector is then sorted ascending (`ds.sortby(LON)`).  An empty coordinate
(where `float(lon.max())` raises) is returned untouched. -/

def _normalize_lon_180 (lons : List ℚ) : List ℚ :=
  match lons.max? with
  | none => lons
  | some m =>
      sortByKey id
        (if m > 180 then lons.map (fun x => pymod (x + 180) 360 - 180) else lons)

/-! ## PointExtractor — `src/lib/historic/extract.py` -/

def MAX_POINTS : Nat := 200

/-- `normalize_longitude`: map the query longitude onto the dataset's
convention — `lon % 360` for a 0..360 dataset, `((lon+180) % 360) - 180`
otherwise. -/
def normalize_longitude (lon : ℚ) (ds_is_360 : Bool) : ℚ :=
  if ds_is_360 then pymod lon 360 else pymod (lon + 180) 360 - 180

/-- The merged historic dataset as seen by `extract_points`: coordinate
vectors, the time axis, an index-addressed sample function (`none` is a
missing/NaN sample of `t2m`), and the `units` attribute of `t2m`. -/
structure HDataset where
  lats : List ℚ
  lons : List ℚ
  times : List Int
  value : Nat → Nat → Nat → Option ℚ
  unitsAttr : Option String

/-- `p` is a prefix of the character list. -/
def startsWithChars : List Char → List Char → Bool
  | [], _ => true
  | _ :: _, [] => false
  | a :: ps, b :: ss => a == b && startsWithChars ps ss

/-- Python's substring test `p in s`, over character lists. -/
def charsContains (p : List Char) : List Char → Bool
  | [] => p.isEmpty
  | b :: ss => startsWithChars p (b :: ss) || charsContains p ss

/-- Kelvin detection: `"K" in u or "kelvin" in u.lower()`. -/
def isKelvinUnits : Option String → Bool
  | none => false
  | some u =>
      u.data.contains 'K' ||
        charsContains "kelvin".data (u.data.map Char.toLower)

/-- `np.abs(np.diff(xs)).mean()` — the mean absolute spacing of a
coordinate vector (grid resolution as the code computes it). -/
def meanAbsDiff (xs : List ℚ) : ℚ :=
  let ds := (xs.zip xs.tail).map (fun p => |p.2 - p.1|)
  ds.sum / ds.length

/-- `sel(..., method="nearest")` on one axis: the index of the coordinate
closest to the query (ties resolved to the larger index, as pandas does on
a monotonic-increasing index). -/
def nearestIdx (xs : List ℚ) (q : ℚ) : Nat :=
  (xs.enum.foldl
    (fun best p => if |p.2 - q| ≤ |best.2 - q| then p else best)
    (0, xs.headD 0)).1

/-- Wrap-aware longitude distance: `d = |a - b|; if d > 180: d = 360 - d`. -/
def circLonDiff (a b : ℚ) : ℚ :=
  let d := |a - b|
  if d > 180 then 360 - d else d

structure SeriesEntry where
  date : Int
  value : Option ℚ
deriving DecidableEq

inductive PointOutcome where
  | ok (lat_used lon_used : ℚ) (varName units : String)
      (series : List SeriesEntry)
  | invalidLat
  | outOfBounds (nearest_lat nearest_lon : ℚ)
deriving DecidableEq

/-- One per-point result: the echoed request coordinates plus either the
extracted series or a structured per-point error. -/
@[ext]
structure PointResult where
  lat_requested : ℚ
  lon_requested : ℚ
  outcome : PointOutcome
deriving DecidableEq

structure QueryPoint where
  lat : ℚ
  lon : ℚ

/-- `np.any(ds_lons > 180)` — dataset longitude-convention detection. -/
def dsIs360 (ds : HDataset) : Bool :=
  ds.lons.any (fun x => decide (x > 180))

/-- The per-point body of `extract_points`: latitude validation, longitude
normalization, independent nearest-neighbour lookup on each axis,
tolerance check (strict `>` — a hit exactly at tolerance is accepted),
then series extraction with unit conversion (`Kelvin→Celsius` subtracts
273.15; all other combinations leave samples unchanged) and `NaN → None`
replacement. -/
def extractPoint (ds : HDataset) (units : String) (is_kelvin ds_is_360 : Bool)
    (tol_lat tol_lon : ℚ) (pt : QueryPoint) : PointResult :=
  if ¬ (-90 ≤ pt.lat ∧ pt.lat ≤ 90) then ⟨pt.lat, pt.lon, .invalidLat⟩
  else
    let norm_lon := normalize_longitude pt.lon ds_is_360
    let li := nearestIdx ds.lats pt.lat
    let lj := nearestIdx ds.lons norm_lon
    let found_lat := ds.lats.getD li 0
    let found_lon := ds.lons.getD lj 0
    let diff_lat := |found_lat - pt.lat|
    let diff_lon := circLonDiff found_lon norm_lon
    if diff_lat > tol_lat ∨ diff_lon > tol_lon then
      ⟨pt.lat, pt.lon, .outOfBounds found_lat found_lon⟩
    else
      let series := (List.range ds.times.length).map (fun t =>
        { date := ds.times.getD t 0,
          value :=
            if is_kelvin ∧ units = "C" then
              (ds.value t li lj).map (fun x => x - 273.15)
            else ds.value t li lj })
      ⟨pt.lat, pt.lon, .ok found_lat found_lon "t2m" units series⟩

/-- `extractPoint` with the arguments exactly as `extract_points` computes
them: Kelvin detection from the `units` attribute, convention detection
from the longitude vector, tolerance `0.6 ×` mean grid spacing per axis. -/
def extractPointFull (ds : HDataset) (units : String) (pt : QueryPoint) :
    PointResult :=
  extractPoint ds units (isKelvinUnits ds.unitsAttr) (dsIs360 ds)
    (0.6 * meanAbsDiff ds.lats) (0.6 * meanAbsDiff ds.lons) pt

/-- `extract_points`: empty batch short-circuits; an oversized batch fails
whole; otherwise every point is processed independently. -/
def extract_points (ds : HDataset) (units : String)
    (points : List QueryPoint) : Except String (List PointResult) :=
  if points.isEmpty then .ok []
  else if points.length > MAX_POINTS then
    .error "Too many points requested"
  else .ok (points.map (extractPointFull ds units))

/-- Modelled from the spec: "0.6 × the dataset's median grid spacing" —
the median of the absolute consecutive differences of a coordinate vector
(middle element of the sorted differences, mean of the two middles when
even), which the spec names as the basis of the tolerance window.  The
source (`src/lib/historic/extract.py`) uses the *mean* spacing instead;
this definition exists only to compare the two. -/
def medianAbsDiffSpec (xs : List ℚ) : ℚ :=
  let ds := sortByKey id ((xs.zip xs.tail).map (fun p => |p.2 - p.1|))
  if ds.length % 2 = 1 then ds.getD (ds.length / 2) 0
  else (ds.getD (ds.length / 2 - 1) 0 + ds.getD (ds.length / 2) 0) / 2

/-- C8 counterexample: the source longitude vector `[90, 180]` has maximum
exactly 180, so `_normalize_lon_180` does not convert it; the value 180
survives, and 180 does not lie in the half-open interval `[-180, 180)`. -/
theorem normalize_lon_180_counterexample :
    (180 : ℚ) ∈ _normalize_lon_180 [90, 180] ∧ ¬ ((180 : ℚ) < 180) := by
  constructor
  · norm_num [_normalize_lon_180, List.max?, max_def, sortByKey, ordInsertK]
  · norm_num

/-- C8 (amended): `_normalize_lon_180` always returns the longitude vector
sorted ascending; and whenever the original maximum exceeds 180 — the only
case in which the 0..360 → -180..180 conversion fires — every returned
longitude lies in `[-180, 180)`.  A vector whose maximum is at most 180 is
only sorted, its values unchanged, so a value of exactly 180 (or below
-180) survives. -/
theorem normalize_lon_180_sorted_and_range (lons : List ℚ) :
    ((_normalize_lon_180 lons).Pairwise (fun a b => a ≤ b)) ∧
    (∀ m : ℚ, lons.max? = some m → 180 < m →
      ∀ x ∈ _normalize_lon_180 lons, -180 ≤ x ∧ x < 180) := by
  constructor
  · cases hm : lons.max? with
    | none =>
      have he : lons = [] := List.max?_eq_none_iff.mp hm
      simp [_normalize_lon_180, hm, he]
    | some m =>
      simp only [_normalize_lon_180, hm]
      exact pairwise_sortByKey id _
  · intro m hm h180 x hx
    simp only [_normalize_lon_180, hm, if_pos h180] at hx
    have hx' := (perm_sortByKey id _).mem_iff.mp hx
    rcases List.mem_map.mp hx' with ⟨y, _, hy⟩
    have h0 := pymod_nonneg (y + 180)
    have h1 := pymod_lt (y + 180)
    constructor
    · rw [← hy]; linarith
    · rw [← hy]; linarith

/-- Witness for the amended C8 theorem: the vector `[0, 90, 200, 350]`
(maximum 350 > 180) converts to values inside `[-180, 180)`; 200 lands at
-160 and is a member of the normalized vector. -/
theorem normalize_lon_180_range_witness :
    (-160 : ℚ) ∈ _normalize_lon_180 [0, 90, 200, 350] ∧
    (-180 ≤ (-160 : ℚ) ∧ (-160 : ℚ) < 180) := by
  have hmem : (-160 : ℚ) ∈ _normalize_lon_180 [0, 90, 200, 350] := by
    norm_num [_normalize_lon_180, List.max?, max_def, sortByKey, ordInsertK,
      pymod]
  exact ⟨hmem,
    (normalize_lon_180_sorted_and_range [0, 90, 200, 350]).2 350
      (by norm_num [List.max?, max_def]) (by norm_num) (-160) hmem⟩

theorem extractPoint_lat_requested (ds : HDataset) (units : String)
    (is_k conv : Bool) (tl tlo : ℚ) (pt : QueryPoint) :
    (extractPoint ds units is_k conv tl tlo pt).lat_requested = pt.lat := by
  simp [extractPoint, apply_ite PointResult.lat_requested]

theorem extractPoint_lon_requested (ds : HDataset) (units : String)
    (is_k conv : Bool) (tl tlo : ℚ) (pt : QueryPoint) :
    (extractPoint ds units is_k conv tl tlo pt).lon_requested = pt.lon := by
  simp [extractPoint, apply_ite PointResult.lon_requested]

/-- The outcome of a point extraction depends on the request only through
the latitude and the normalized longitude. -/
theorem extractPoint_outcome_congr (ds : HDataset) (units : String)
    (is_k conv : Bool) (tl tlo : ℚ) (p q : QueryPoint)
    (hlat : p.lat = q.lat)
    (hlon : normalize_longitude p.lon conv = normalize_longitude q.lon conv) :
    (extractPoint ds units is_k conv tl tlo p).outcome =
      (extractPoint ds units is_k conv tl tlo q).outcome := by
  simp only [extractPoint, hlat, hlon, apply_ite PointResult.outcome]

/-- C9 (amended): `normalize_longitude` maps `lon` and `lon + 360` to the
same value under either dataset convention, so the two queries select the
same grid cell and series; the full per-point results agree in everything
except the echoed `lon_requested` field, which repeats the raw request. -/
theorem normalize_longitude_periodic_extract (lon lat : ℚ) (b : Bool)
    (ds : HDataset) (units : String) :
    normalize_longitude (lon + 360) b = normalize_longitude lon b ∧
    extractPointFull ds units ⟨lat, lon + 360⟩ =
      { extractPointFull ds units ⟨lat, lon⟩ with
          lon_requested := lon + 360 } := by
  have hper : ∀ c : Bool,
      normalize_longitude (lon + 360) c = normalize_longitude lon c := by
    intro c
    cases c with
    | true => simpa [normalize_longitude] using pymod_add_360 lon
    | false =>
      have e1 : normalize_longitude (lon + 360) false =
          pymod (lon + 360 + 180) 360 - 180 := rfl
      have e2 : normalize_longitude lon false =
          pymod (lon + 180) 360 - 180 := rfl
      rw [e1, e2, show lon + 360 + 180 = lon + 180 + 360 by ring,
        pymod_add_360]
  refine ⟨hper b, ?_⟩
  apply PointResult.ext
  · rw [extractPointFull, extractPoint_lat_requested]
    rw [extractPointFull, extractPoint_lat_requested]
  · rw [extractPointFull, extractPoint_lon_requested]
  · rw [extractPointFull, extractPointFull]
    exact extractPoint_outcome_congr ds units _ _ _ _ ⟨lat, lon + 360⟩
      ⟨lat, lon⟩ rfl (hper (dsIs360 ds))

/-- The merged dataset used in the C9 examples: a 0..360-convention grid
(longitudes 280, 290, 300). -/
def dsWrap : HDataset :=
  { lats := [0, 1, 2], lons := [280, 290, 300], times := [0, 1],
    value := fun t _ _ => if t = 0 then some 280 else none,
    unitsAttr := some "K" }

/-- C9 counterexample: against the 0..360-convention dataset, the queries
`lon = -70` and `lon = 290` select the same cell and the same series, but
the two extraction results are not identical — each echoes its own raw
`lon_requested` (-70 vs 290). -/
theorem normalize_longitude_equiv_counterexample :
    dsIs360 dsWrap = true ∧
    extract_points dsWrap "K" [⟨0, -70⟩] =
      .ok [⟨0, -70, .ok 0 290 "t2m" "K" [⟨0, some 280⟩, ⟨1, none⟩]⟩] ∧
    extract_points dsWrap "K" [⟨0, 290⟩] =
      .ok [⟨0, 290, .ok 0 290 "t2m" "K" [⟨0, some 280⟩, ⟨1, none⟩]⟩] ∧
    extract_points dsWrap "K" [⟨0, -70⟩] ≠
      extract_points dsWrap "K" [⟨0, 290⟩] := by
  have h1 : extract_points dsWrap "K" [⟨0, -70⟩] =
      .ok [⟨0, -70, .ok 0 290 "t2m" "K" [⟨0, some 280⟩, ⟨1, none⟩]⟩] := by
    norm_num [extract_points, extractPointFull, extractPoint, MAX_POINTS,
      dsWrap, dsIs360, meanAbsDiff, nearestIdx, normalize_longitude, pymod,
      circLonDiff, List.enum, abs_eq_max_neg, max_def, List.range_succ]
    intro hk
    decide
  have h2 : extract_points dsWrap "K" [⟨0, 290⟩] =
      .ok [⟨0, 290, .ok 0 290 "t2m" "K" [⟨0, some 280⟩, ⟨1, none⟩]⟩] := by
    norm_num [extract_points, extractPointFull, extractPoint, MAX_POINTS,
      dsWrap, dsIs360, meanAbsDiff, nearestIdx, normalize_longitude, pymod,
      circLonDiff, List.enum, abs_eq_max_neg, max_def, List.range_succ]
    intro hk
    decide
  refine ⟨rfl, h1, h2, ?_⟩
  rw [h1, h2]
  intro hc
  simp only [Except.ok.injEq, List.cons.injEq, PointResult.mk.injEq] at hc
  have : ((-70 : ℚ)) = 290 := hc.1.2.1
  norm_num at this

theorem getD_range_map {β : Type} (f : Nat → β) (n i : Nat) (hi : i < n)
    (d : β) : ((List.range n).map f).getD i d = f i := by
  rw [List.getD_eq_getElem?_getD, List.getElem?_map]
  simp [List.getElem?_range, hi]

/-- Inversion of a successful point extraction: the record's variable name
is `"t2m"`, its units echo the request, the grid cell used is the nearest
cell on each axis, and the series is the full time axis with the
Kelvin-to-Celsius conversion applied exactly when the source is detected
as Kelvin and Celsius was requested. -/
theorem extractPoint_ok_inversion (ds : HDataset) (units : String)
    (is_k conv : Bool) (tl tlo : ℚ) (pt : QueryPoint)
    (flat flon : ℚ) (vn un : String) (s : List SeriesEntry)
    (hcall : extractPoint ds units is_k conv tl tlo pt =
      ⟨pt.lat, pt.lon, .ok flat flon vn un s⟩) :
    vn = "t2m" ∧ un = units ∧
    flat = ds.lats.getD (nearestIdx ds.lats pt.lat) 0 ∧
    flon = ds.lons.getD
      (nearestIdx ds.lons (normalize_longitude pt.lon conv)) 0 ∧
    s = (List.range ds.times.length).map (fun t =>
      { date := ds.times.getD t 0,
        value :=
          if is_k = true ∧ units = "C" then
            (ds.value t (nearestIdx ds.lats pt.lat)
              (nearestIdx ds.lons (normalize_longitude pt.lon conv))).map
              (fun x => x - 273.15)
          else ds.value t (nearestIdx ds.lats pt.lat)
            (nearestIdx ds.lons (normalize_longitude pt.lon conv)) }) := by
  simp only [extractPoint] at hcall
  split at hcall
  · exact absurd (congrArg PointResult.outcome hcall) (by simp)
  · split at hcall
    · exact absurd (congrArg PointResult.outcome hcall) (by simp)
    · have ho := congrArg PointResult.outcome hcall
      simp only [PointOutcome.ok.injEq] at ho
      exact ⟨ho.2.2.1.symm, ho.2.2.2.1.symm, ho.1.symm, ho.2.1.symm,
        ho.2.2.2.2.symm⟩

/-- C6: for a successfully extracted point, when the source unit metadata
identifies Kelvin and Celsius is requested every sample is the source
sample minus 273.15 (null staying null); Kelvin→Kelvin and
Celsius→Celsius requests leave every sample unchanged; and a missing
source sample is returned as an explicit null. -/
theorem extract_unit_conversion (ds : HDataset) (units : String)
    (pt : QueryPoint) (flat flon : ℚ) (vn un : String)
    (s : List SeriesEntry)
    (hcall : extractPointFull ds units pt =
      ⟨pt.lat, pt.lon, .ok flat flon vn un s⟩) :
    s.length = ds.times.length ∧
    (∀ i, i < ds.times.length →
      (isKelvinUnits ds.unitsAttr = true → units = "C" →
        (s.getD i ⟨0, none⟩).value =
          (ds.value i (nearestIdx ds.lats pt.lat)
            (nearestIdx ds.lons
              (normalize_longitude pt.lon (dsIs360 ds)))).map
            (fun x => x - 273.15)) ∧
      ((isKelvinUnits ds.unitsAttr = true ∧ units = "K") ∨
        (isKelvinUnits ds.unitsAttr = false ∧ units = "C") →
        (s.getD i ⟨0, none⟩).value =
          ds.value i (nearestIdx ds.lats pt.lat)
            (nearestIdx ds.lons (normalize_longitude pt.lon (dsIs360 ds)))) ∧
      (ds.value i (nearestIdx ds.lats pt.lat)
          (nearestIdx ds.lons (normalize_longitude pt.lon (dsIs360 ds))) =
            none →
        (s.getD i ⟨0, none⟩).value = none)) := by
  rw [extractPointFull] at hcall
  obtain ⟨_, _, _, _, hs⟩ := extractPoint_ok_inversion ds units
    (isKelvinUnits ds.unitsAttr) (dsIs360 ds) _ _ pt flat flon vn un s hcall
  subst hs
  refine ⟨by simp, ?_⟩
  intro i hi
  rw [getD_range_map _ _ _ hi]
  refine ⟨?_, ?_, ?_⟩
  · intro hk hu
    simp [hk, hu]
  · intro h
    rcases h with ⟨hk, hu⟩ | ⟨hk, hu⟩
    · simp only [hu]
      simp
    · simp only [hk]
      simp
  · intro hv
    simp only [hv]
    split <;> simp

/-- C10: the `units` field of every successful per-point result always
equals the requested target units, and when the source metadata does not
identify Kelvin but `"K"` is requested, the samples are returned
unconverted while still labeled with the requested units. -/
theorem extract_units_echo (ds : HDataset) (units : String)
    (pt : QueryPoint) (flat flon : ℚ) (vn un : String)
    (s : List SeriesEntry)
    (hcall : extractPointFull ds units pt =
      ⟨pt.lat, pt.lon, .ok flat flon vn un s⟩) :
    un = units ∧
    (isKelvinUnits ds.unitsAttr = false → units = "K" →
      ∀ i, i < ds.times.length →
        (s.getD i ⟨0, none⟩).value =
          ds.value i (nearestIdx ds.lats pt.lat)
            (nearestIdx ds.lons (normalize_longitude pt.lon (dsIs360 ds)))) := by
  rw [extractPointFull] at hcall
  obtain ⟨_, hu, _, _, hs⟩ := extractPoint_ok_inversion ds units
    (isKelvinUnits ds.unitsAttr) (dsIs360 ds) _ _ pt flat flon vn un s hcall
  subst hs
  refine ⟨hu, ?_⟩
  intro hk _ i hi
  rw [getD_range_map _ _ _ hi]
  simp only [hk]
  simp

/-- C5 (amended): the tolerance window on each axis equals 0.6 × the MEAN
grid spacing of that axis (not the median); a point whose nearest cell
lies exactly at the tolerance distance is accepted; a point whose absolute
latitude distance or wrap-aware circular longitude distance to the nearest
cell exceeds the tolerance yields a per-point OutOfBounds result carrying
the nearest grid coordinates; and a batch within the size limit always
yields one independent result per point. -/
theorem extract_tolerance_mean (ds : HDataset) (units : String)
    (pt : QueryPoint) (hlat : -90 ≤ pt.lat ∧ pt.lat ≤ 90) :
    ((|ds.lats.getD (nearestIdx ds.lats pt.lat) 0 - pt.lat| >
        0.6 * meanAbsDiff ds.lats ∨
      circLonDiff
          (ds.lons.getD
            (nearestIdx ds.lons (normalize_longitude pt.lon (dsIs360 ds))) 0)
          (normalize_longitude pt.lon (dsIs360 ds)) >
        0.6 * meanAbsDiff ds.lons) →
      extractPointFull ds units pt =
        ⟨pt.lat, pt.lon, .outOfBounds
          (ds.lats.getD (nearestIdx ds.lats pt.lat) 0)
          (ds.lons.getD
            (nearestIdx ds.lons (normalize_longitude pt.lon (dsIs360 ds)))
            0)⟩) ∧
    ((|ds.lats.getD (nearestIdx ds.lats pt.lat) 0 - pt.lat| ≤
        0.6 * meanAbsDiff ds.lats ∧
      circLonDiff
          (ds.lons.getD
            (nearestIdx ds.lons (normalize_longitude pt.lon (dsIs360 ds))) 0)
          (normalize_longitude pt.lon (dsIs360 ds)) ≤
        0.6 * meanAbsDiff ds.lons) →
      extractPointFull ds units pt =
        ⟨pt.lat, pt.lon, .ok
          (ds.lats.getD (nearestIdx ds.lats pt.lat) 0)
          (ds.lons.getD
            (nearestIdx ds.lons (normalize_longitude pt.lon (dsIs360 ds)))
            0)
          "t2m" units
          ((List.range ds.times.length).map (fun t =>
            { date := ds.times.getD t 0,
              value :=
                if isKelvinUnits ds.unitsAttr = true ∧ units = "C" then
                  (ds.value t (nearestIdx ds.lats pt.lat)
                    (nearestIdx ds.lons
                      (normalize_longitude pt.lon (dsIs360 ds)))).map
                    (fun x => x - 273.15)
                else ds.value t (nearestIdx ds.lats pt.lat)
                  (nearestIdx ds.lons
                    (normalize_longitude pt.lon (dsIs360 ds))) }))⟩) ∧
    (∀ pts : List QueryPoint, pts.length ≤ MAX_POINTS →
      extract_points ds units pts = .ok (pts.map (extractPointFull ds units))) := by
  refine ⟨?_, ?_, ?_⟩
  · intro hcond
    rw [extractPointFull, extractPoint, if_neg (not_not_intro hlat),
      if_pos hcond]
  · intro hcond
    rw [extractPointFull, extractPoint, if_neg (not_not_intro hlat),
      if_neg (not_or.mpr ⟨not_lt.mpr hcond.1, not_lt.mpr hcond.2⟩)]
  · intro pts hlen
    rw [extract_points]
    cases hpe : pts.isEmpty with
    | true =>
      have : pts = [] := List.isEmpty_iff.mp hpe
      simp [this]
    | false =>
      rw [if_neg (by simp [hpe]), if_neg (not_lt.mpr hlen)]

/-- The merged dataset used in the C5 examples: its latitude spacings are
`[1, 1, 2]`, so the mean spacing is 4/3 (tolerance 0.8) while the median
spacing is 1 (tolerance 0.6). -/
def dsTol : HDataset :=
  { lats := [0, 1, 2, 4], lons := [10, 11, 12, 13], times := [0],
    value := fun _ _ _ => some 300, unitsAttr := some "K" }

/-- C5 counterexample: on the non-uniform grid of `dsTol`, the point at
latitude 2.7 is 0.7 away from its nearest cell (latitude 2); 0.7 exceeds
0.6 × the median spacing (= 0.6), so the claim demands OutOfBounds — yet
the code accepts the point, because its tolerance is 0.6 × the mean
spacing (= 0.8). -/
theorem extract_tolerance_median_counterexample :
    extract_points dsTol "K" [⟨27/10, 11⟩] =
      .ok [⟨27/10, 11, .ok 2 11 "t2m" "K" [⟨0, some 300⟩]⟩] ∧
    |(2 : ℚ) - 27/10| > 0.6 * medianAbsDiffSpec dsTol.lats ∧
    medianAbsDiffSpec dsTol.lats = 1 ∧
    meanAbsDiff dsTol.lats = 4/3 := by
  have hmed : medianAbsDiffSpec dsTol.lats = 1 := by
    norm_num [medianAbsDiffSpec, dsTol, sortByKey, ordInsertK,
      abs_eq_max_neg, max_def]
  have hmean : meanAbsDiff dsTol.lats = 4/3 := by
    norm_num [meanAbsDiff, dsTol, abs_eq_max_neg, max_def]
  refine ⟨?_, ?_, hmed, hmean⟩
  · norm_num [extract_points, extractPointFull, extractPoint, MAX_POINTS,
      dsTol, dsIs360, meanAbsDiff, nearestIdx, normalize_longitude, pymod,
      circLonDiff, List.enum, abs_eq_max_neg, max_def, List.range_succ]
    intro hk
    decide
  · rw [hmed]
    norm_num [abs_eq_max_neg, max_def]

/-- Witness for the amended C5 theorem on `dsTol`: latitude 2.8 sits
exactly at the 0.8 tolerance from cell 2 and is accepted; latitude 3 is
1.0 away from its nearest cell (latitude 4, ties going to the later
index) and is rejected with that nearest grid coordinate. -/
theorem extract_tolerance_mean_witness :
    extractPointFull dsTol "K" ⟨14/5, 11⟩ =
      ⟨14/5, 11, .ok 2 11 "t2m" "K" [⟨0, some 300⟩]⟩ ∧
    extractPointFull dsTol "K" ⟨3, 11⟩ = ⟨3, 11, .outOfBounds 4 11⟩ := by
  constructor
  · have h := (extract_tolerance_mean dsTol "K" ⟨14/5, 11⟩
      (by norm_num)).2.1 (by
        norm_num [dsTol, dsIs360, meanAbsDiff, nearestIdx,
          normalize_longitude, pymod, circLonDiff, List.enum,
          abs_eq_max_neg, max_def])
    rw [h]
    have hk : isKelvinUnits dsTol.unitsAttr = true := by decide
    norm_num [dsTol, dsIs360, nearestIdx, normalize_longitude, pymod,
      List.enum, abs_eq_max_neg, max_def, List.range_succ, hk]
    intro _
    decide
  · have h := (extract_tolerance_mean dsTol "K" ⟨3, 11⟩
      (by norm_num)).1 (by
        norm_num [dsTol, dsIs360, meanAbsDiff, nearestIdx,
          normalize_longitude, pymod, circLonDiff, List.enum,
          abs_eq_max_neg, max_def])
    rw [h]
    norm_num [dsTol, dsIs360, nearestIdx, normalize_longitude, pymod,
      List.enum, abs_eq_max_neg, max_def]

/-- The merged dataset used in the C6 witness: Kelvin unit metadata, one
present sample (300 K) and one missing sample. -/
def dsKel : HDataset :=
  { lats := [0, 1], lons := [10, 11], times := [0, 1],
    value := fun t _ _ => if t = 0 then some 300 else none,
    unitsAttr := some "K" }

/-- Witness for C6 on `dsKel` requesting Celsius: the non-null Kelvin
sample 300 becomes 300 − 273.15 = 26.85 = 537/20, and the missing sample
stays an explicit null. -/
theorem extract_unit_conversion_witness :
    extractPointFull dsKel "C" ⟨0, 10⟩ =
      ⟨0, 10, .ok 0 10 "t2m" "C" [⟨0, some (537/20)⟩, ⟨1, none⟩]⟩ ∧
    ([(⟨0, some (537/20)⟩ : SeriesEntry), ⟨1, none⟩].getD 0 ⟨0, none⟩).value =
      (dsKel.value 0 (nearestIdx dsKel.lats 0)
        (nearestIdx dsKel.lons (normalize_longitude 10 (dsIs360 dsKel)))).map
        (fun x => x - 273.15) ∧
    ([(⟨0, some (537/20)⟩ : SeriesEntry), ⟨1, none⟩].getD 1 ⟨0, none⟩).value =
      none := by
  have hk : isKelvinUnits (some "K") = true := by decide
  have hcall : extractPointFull dsKel "C" ⟨0, 10⟩ =
      ⟨0, 10, .ok 0 10 "t2m" "C" [⟨0, some (537/20)⟩, ⟨1, none⟩]⟩ := by
    norm_num [extractPointFull, extractPoint, dsKel, dsIs360, meanAbsDiff,
      nearestIdx, normalize_longitude, pymod, circLonDiff, hk,
      List.enum, abs_eq_max_neg, max_def, List.range_succ]
  have h := extract_unit_conversion dsKel "C" ⟨0, 10⟩ 0 10 "t2m" "C"
    [⟨0, some (537/20)⟩, ⟨1, none⟩] hcall
  refine ⟨hcall, (h.2 0 (by simp [dsKel])).1 hk rfl, ?_⟩
  exact (h.2 1 (by simp [dsKel])).2.2 rfl

/-- The merged dataset used in the C10 witness: no unit metadata at all
(so Kelvin is not detected), one sample of value 5. -/
def dsNoUnit : HDataset :=
  { lats := [0, 1], lons := [10, 11], times := [0],
    value := fun _ _ _ => some 5, unitsAttr := none }

/-- Witness for C10 on `dsNoUnit` requesting `"K"`: the result is labeled
`"K"` even though the source metadata never identified Kelvin, and the
sample passes through unconverted. -/
theorem extract_units_echo_witness :
    extractPointFull dsNoUnit "K" ⟨0, 10⟩ =
      ⟨0, 10, .ok 0 10 "t2m" "K" [⟨0, some 5⟩]⟩ ∧
    ([(⟨0, some 5⟩ : SeriesEntry)].getD 0 ⟨0, none⟩).value =
      dsNoUnit.value 0 (nearestIdx dsNoUnit.lats 0)
        (nearestIdx dsNoUnit.lons
          (normalize_longitude 10 (dsIs360 dsNoUnit))) := by
  have hcall : extractPointFull dsNoUnit "K" ⟨0, 10⟩ =
      ⟨0, 10, .ok 0 10 "t2m" "K" [⟨0, some 5⟩]⟩ := by
    norm_num [extractPointFull, extractPoint, dsNoUnit, dsIs360,
      meanAbsDiff, nearestIdx, normalize_longitude, pymod, circLonDiff,
      isKelvinUnits, List.enum, abs_eq_max_neg, max_def, List.range_succ]
  have h := extract_units_echo dsNoUnit "K" ⟨0, 10⟩ 0 10 "t2m" "K"
    [⟨0, some 5⟩] hcall
  exact ⟨hcall, h.2 rfl rfl 0 (by simp [dsNoUnit])⟩

end AwsMeteo
